import Mathlib

/-!
# DocuMind AI - verification of the ingestion / retrieval core

Shallow embedding of the core of the DocuMind AI backend
(`src/backend/src/...`) and proofs about it:

* `parser.count_tokens_approximate` and `chunker.TextChunker.chunk_file`
  (token-budgeted, line-accurate chunking);
* `database.repositories.JobRepository.update_job_status` and the job
  status machine driven by `api.routes.ingestion.run_ingestion_pipeline`;
* `embeddings.vector_store.VectorStore.similarity_search` with its
  Atlas-accelerated path and brute-force fallback;
* `retrieval.retriever.Retriever.retrieve` and the
  `api.routes.retrieval.retrieve_chunks` route;
* `generation.generator.Generator._calculate_confidence`.

Python strings are modelled as `List Char`; Python ints as `ℤ`/`ℕ`; float
arithmetic is idealised as exact rational arithmetic (`ℚ`).  Cosine
similarity values `d / sqrt m` are represented exactly by the
order-isomorphic rational key `sign d * d^2 / m` (see `cos_key` below), so
that every comparison the code performs on float scores is mirrored by a
decidable comparison on `ℚ`.
-/

namespace DocuMind

/-! ## Python string primitives -/

/-- Python `str.strip()` (whitespace from both ends). -/
def pyStrip (cs : List Char) : List Char :=
  ((cs.dropWhile Char.isWhitespace).reverse.dropWhile Char.isWhitespace).reverse

/-- Python `str.lstrip()`. -/
def pyLstrip (cs : List Char) : List Char :=
  cs.dropWhile Char.isWhitespace

/-- Python `text.split('\n')`: split at every newline, keeping empty pieces.
`splitNl cs` is always non-empty, and has `k+1` entries for `k` newlines. -/
def splitNl : List Char → List (List Char)
  | [] => [[]]
  | c :: rest =>
    if c = '\n' then [] :: splitNl rest
    else
      match splitNl rest with
      | [] => [[c]]
      | l :: ls => (c :: l) :: ls

/-- Python `'\n'.join(lines)`. -/
def joinNl (ls : List (List Char)) : List Char :=
  List.intercalate ['\n'] ls

/-- Helper for `word_count`: the Boolean records whether we are inside a word. -/
def wc_go : List Char → Bool → ℕ
  | [], _ => 0
  | c :: cs, inWord =>
    if c.isWhitespace then wc_go cs false
    else (if inWord then 0 else 1) + wc_go cs true

/-- Python `len(text.split())`: number of maximal whitespace-free runs. -/
def word_count (cs : List Char) : ℕ := wc_go cs false

/-! ## `parser.count_tokens_approximate`

```python
if not text: return 0
char_count = len(text)
word_count = len(text.split())
char_based = char_count / 4
word_based = word_count * 1.3
return int((char_based + word_based) / 2)
```
Floats are idealised as exact rationals; `int` on a non-negative value is
the floor.  Over exact rationals the returned value is
`⌊(len/4 + words * 13/10) / 2⌋ = (5*len + 26*words) / 40` (integer
division); the definition uses the integer form so that it evaluates by
kernel reduction, and `count_tokens_approximate_eq_floor` below proves it
equal to the floor of the literal source formula. -/

def count_tokens_approximate (text : List Char) : ℤ :=
  if text = [] then 0
  else (5 * (text.length : ℤ) + 26 * (word_count text : ℤ)) / 40

/-- `count_tokens_approximate` is exactly the source expression
`int((char_count / 4 + word_count * 1.3) / 2)` evaluated in exact rational
arithmetic (`int` = floor on these non-negative values). -/
theorem count_tokens_approximate_eq_floor (text : List Char) (h : text ≠ []) :
    count_tokens_approximate text
      = ⌊(((text.length : ℚ) / 4 + (word_count text : ℚ) * (13 / 10)) / 2)⌋ := by
  have hq : (((text.length : ℚ) / 4 + (word_count text : ℚ) * (13 / 10)) / 2)
      = ((5 * (text.length : ℤ) + 26 * (word_count text : ℤ) : ℤ) : ℚ) / ((40 : ℕ) : ℚ) := by
    push_cast
    ring
  rw [count_tokens_approximate, if_neg h, hq, Rat.floor_intCast_div_natCast]
  norm_num

/-! ## `chunker.TextChunker`

The chunker is parametrised by `max_tokens` and `overlap_lines`
(`settings.MAX_CHUNK_TOKENS = 800`, `settings.CHUNK_OVERLAP_LINES = 2` by
default).  `_generate_chunk_id` draws a fresh random UUID
(`f"chunk_{uuid.uuid4().hex[:16]}"`) per chunk; we model the stream of ids
the UUID generator produces as a function `ids : ℕ → String`, consumed at
successive indices. -/

/-- `chunker.Chunk` (the "Unit" of the spec). -/
structure Chunk where
  chunk_id : String
  job_id : String
  file_path : String
  language : String
  start_line : ℕ
  end_line : ℕ
  content : List Char
  token_count : ℤ
deriving DecidableEq

/-- The token-accumulation loop of `TextChunker._find_chunk_end`:

```python
for i in range(start, total_lines):
    accumulated_content.append(lines[i])
    token_count = count_tokens_approximate('\n'.join(accumulated_content))
    if token_count > self.max_tokens:
        current_end = max(i, start + 1); break
    current_end = i + 1
else:
    current_end = total_lines
```
-/
def accum_go (maxTokens : ℤ) (lines : List (List Char)) (start total : ℕ)
    (i : ℕ) (acc : List (List Char)) : ℕ :=
  if _h : i < total then
    let acc2 := acc ++ [lines.getD i []]
    if maxTokens < count_tokens_approximate (joinNl acc2) then max i (start + 1)
    else accum_go maxTokens lines start total (i + 1) acc2
  else total
termination_by total - i
decreasing_by omega

/-- `break_patterns` of `TextChunker._find_logical_break`
(`['', '}', '};', ']', ')']`). -/
def break_pats : List (List Char) :=
  [[], [Char.ofNat 125], [Char.ofNat 125, ';'], [']'], [')']]

/-- `start_patterns` of `TextChunker._find_logical_break`. -/
def start_pats : List (List Char) :=
  ["def ".toList, "class ".toList, "function ".toList, "async def ".toList,
   "async function ".toList, "export ".toList, "import ".toList, "from ".toList,
   "# ".toList, "//".toList, "/*".toList, "\"\"\"".toList,
   List.replicate 3 (Char.ofNat 39)]

/-- `next_line.startswith(pattern)` for any `pattern in start_patterns`. -/
def starts_with_any (l : List Char) : Bool :=
  start_pats.any (fun p => p.isPrefixOf l)

/-- The backwards scan of `TextChunker._find_logical_break` over the index list
`range(end - 1, min_end - 1, -1)`, carrying `best_break` (initially `end`).
An empty or closing line breaks the scan at `i + 1`; a start-pattern match on
the following line only overwrites `best_break` (the inner `break` in the
Python source leaves the pattern loop, not the scan), so the scan continues
downwards. -/
def flb_scan (lines : List (List Char)) : List ℕ → ℕ → ℕ
  | [], best => best
  | i :: rest, best =>
    let line := pyStrip (lines.getD i [])
    if line = [] then i + 1
    else if line ∈ break_pats then i + 1
    else
      flb_scan lines rest
        (if i + 1 < lines.length ∧ starts_with_any (pyLstrip (lines.getD (i + 1) [])) = true
         then i + 1 else best)

/-- `TextChunker._find_logical_break(lines, start, end)`.
`min_end = start + int((end - start) * 0.7)` (float `0.7` idealised to
`7/10`, `int` of a non-negative value = `Nat` division). -/
def find_logical_break (lines : List (List Char)) (start e : ℕ) : ℕ :=
  let minEnd := start + 7 * (e - start) / 10
  flb_scan lines ((List.range' minEnd (e - minEnd)).reverse) e

/-- `TextChunker._find_chunk_end(lines, start, total_lines)`.
(`estimated_lines_per_chunk` and `initial_end` in the source are computed
but never used.) -/
def find_chunk_end (maxTokens : ℤ) (lines : List (List Char)) (start total : ℕ) : ℕ :=
  let currentEnd := accum_go maxTokens lines start total start []
  if start + 1 < currentEnd then
    let better := find_logical_break lines start currentEnd
    if start < better then better else currentEnd
  else currentEnd

/-- The accumulation loop never answers at or below `start` when at least one
line remains: on a budget break it answers `max i (start+1) ≥ start+1`, and on
file end it answers `total > start`. -/
theorem accum_go_ge (maxTokens : ℤ) (lines : List (List Char)) (start total : ℕ)
    (hst : start < total) (i : ℕ) (acc : List (List Char)) :
    start + 1 ≤ accum_go maxTokens lines start total i acc := by
  rw [accum_go]
  dsimp only
  split
  · split
    · omega
    · exact accum_go_ge maxTokens lines start total hst (i + 1) _
  · omega
termination_by total - i

/-- `_find_chunk_end` strictly advances past `start` whenever `start < total`:
this is the cursor-progress fact that makes the chunking loop terminate. -/
theorem find_chunk_end_gt (maxTokens : ℤ) (lines : List (List Char))
    (start total : ℕ) (hst : start < total) :
    start < find_chunk_end maxTokens lines start total := by
  have h := accum_go_ge maxTokens lines start total hst start []
  unfold find_chunk_end
  dsimp only
  split
  · split <;> omega
  · omega

/-- The `while current_start < total_lines` loop of `TextChunker.chunk_file`.
The cursor update in the source is

```python
current_start = max(chunk_end - self.overlap_lines, chunk_end)
```

(the `max` keeps the cursor at `chunk_end`, so the configured overlap never
moves it backwards), followed by two guards (`if current_start >=
total_lines: break` and the no-op `if chunk_end == current_start:
current_start = chunk_end`) that cannot change the state. -/
def chunk_loop (maxTokens : ℤ) (overlap : ℕ) (ids : ℕ → String)
    (jobId filePath lang : String) (lines : List (List Char)) (total : ℕ)
    (start idx : ℕ) : List Chunk :=
  if h : start < total then
    let chunkEnd := find_chunk_end maxTokens lines start total
    let contentRaw := joinNl ((lines.drop start).take (chunkEnd - start))
    let content :=
      if contentRaw ≠ [] ∧ contentRaw.getLast? ≠ some '\n'
      then contentRaw ++ ['\n'] else contentRaw
    let c : Chunk :=
      ⟨ids idx, jobId, filePath, lang, start + 1, chunkEnd, content,
        count_tokens_approximate content⟩
    c :: chunk_loop maxTokens overlap ids jobId filePath lang lines total
        (max (chunkEnd - overlap) chunkEnd) (idx + 1)
  else []
termination_by total - start
decreasing_by
  have := find_chunk_end_gt maxTokens lines start total h
  omega

/-- `TextChunker.chunk_file`, for a parsed file with the given metadata.

```python
if not parsed_file.content or not parsed_file.content.strip(): return []
lines = parsed_file.content.split('\n')
total_tokens = count_tokens_approximate(parsed_file.content)
if total_tokens <= self.max_tokens:
    return [Chunk(..., start_line=1, end_line=total_lines,
                  content=parsed_file.content, token_count=total_tokens)]
# else the chunking loop
```
-/
def chunk_file (maxTokens : ℤ) (overlap : ℕ) (ids : ℕ → String)
    (jobId filePath lang : String) (content : List Char) : List Chunk :=
  if content = [] ∨ pyStrip content = [] then []
  else
    let lines := splitNl content
    let total := lines.length
    let totalTokens := count_tokens_approximate content
    if totalTokens ≤ maxTokens then
      [⟨ids 0, jobId, filePath, lang, 1, total, content, totalTokens⟩]
    else
      chunk_loop maxTokens overlap ids jobId filePath lang lines total 0 0

/-- All fields of a `Chunk` except the randomly generated `chunk_id`. -/
def chunk_data (c : Chunk) : String × String × String × ℕ × ℕ × List Char × ℤ :=
  (c.job_id, c.file_path, c.language, c.start_line, c.end_line, c.content, c.token_count)

/-- The chunking loop is deterministic in everything but the chunk ids: two
runs with different id streams (and different id counters) produce the same
chunks after erasing `chunk_id`. -/
theorem chunk_loop_data (maxTokens : ℤ) (overlap : ℕ) (ids1 ids2 : ℕ → String)
    (jobId fp lang : String) (lines : List (List Char)) (total : ℕ)
    (start idx1 idx2 : ℕ) :
    (chunk_loop maxTokens overlap ids1 jobId fp lang lines total start idx1).map chunk_data
      = (chunk_loop maxTokens overlap ids2 jobId fp lang lines total start idx2).map chunk_data := by
  rw [chunk_loop, chunk_loop]
  dsimp only
  split
  · rw [List.map_cons, List.map_cons]
    exact congrArg₂ (· :: ·) rfl
      (chunk_loop_data maxTokens overlap ids1 ids2 jobId fp lang lines total _ (idx1 + 1) (idx2 + 1))
  · rfl
termination_by total - start
decreasing_by
  rename_i h
  have := find_chunk_end_gt maxTokens lines start total h
  omega

/-- Splitting a newline-free string at newlines yields that one line. -/
theorem splitNl_eq_single {line : List Char} (h : '\n' ∉ line) : splitNl line = [line] := by
  induction line with
  | nil => rfl
  | cons c cs ih =>
    have hc : ¬(c = '\n') := fun hc => h (hc ▸ List.mem_cons_self c cs)
    have hcs : '\n' ∉ cs := fun hm => h (List.mem_cons_of_mem _ hm)
    simp only [splitNl, if_neg hc, ih hcs]

/-- Joining a single line is the identity. -/
theorem joinNl_single (l : List Char) : joinNl [l] = l := by
  simp [joinNl, List.intercalate]

/-- A list whose entries are all newline-free has no `some '\n'` last entry. -/
theorem getLast?_ne_newline {line : List Char} (h : '\n' ∉ line) :
    line.getLast? ≠ some '\n' := by
  intro hl
  obtain ⟨hne, heq⟩ := List.mem_getLast?_eq_getLast hl
  exact h (heq ▸ List.getLast_mem hne)

/-- C4 (counterexample): `chunk_file` is NOT a pure function of
`(text, B, overlap)` alone — its output also depends on the stream of UUIDs
that `_generate_chunk_id` draws, so two calls on the same input return Units
with different `chunk_id` fields. -/
theorem chunk_file_fresh_ids_counterexample :
    chunk_file 800 2 (fun _ => "chunk_aaaaaaaaaaaaaaaa") "job" "f.py" "python" ['x']
      ≠ chunk_file 800 2 (fun _ => "chunk_bbbbbbbbbbbbbbbb") "job" "f.py" "python" ['x'] := by
  decide

/-- C4 (amended): `chunk_file` is deterministic given `(text, B, overlap)` in
every Unit field except `chunk_id`: after erasing the randomly generated
chunk ids, two calls with arbitrary id streams agree exactly. -/
theorem chunk_file_pure_up_to_chunk_ids (maxTokens : ℤ) (overlap : ℕ)
    (ids1 ids2 : ℕ → String) (jobId fp lang : String) (content : List Char) :
    (chunk_file maxTokens overlap ids1 jobId fp lang content).map chunk_data
      = (chunk_file maxTokens overlap ids2 jobId fp lang content).map chunk_data := by
  unfold chunk_file
  split
  · rfl
  · dsimp only
    split
    · rfl
    · exact chunk_loop_data maxTokens overlap ids1 ids2 jobId fp lang
        (splitNl content) (splitNl content).length 0 0 0

/-- C5 (counterexample): a whitespace-only file has token estimate `0 ≤ B`
but `chunk_file` returns zero Units for it (the `not content.strip()` guard),
not one Unit spanning the file. -/
theorem chunk_file_blank_file_counterexample :
    count_tokens_approximate [' ', ' '] ≤ 800
      ∧ (chunk_file 800 2 (fun _ => "chunk_cccccccccccccccc") "job" "f.py" "python"
          [' ', ' ']).length ≠ 1 := by
  constructor
  · decide
  · decide

/-- C5 (amended): for every file whose content is non-empty and not
whitespace-only, if the whole-file token estimate is at most the budget,
`chunk_file` returns exactly one Unit with `start_line = 1`, `end_line` the
file's total line count, and the whole file as content. -/
theorem chunk_file_single_chunk_when_under_budget (maxTokens : ℤ) (overlap : ℕ)
    (ids : ℕ → String) (jobId fp lang : String) (content : List Char)
    (hne : content ≠ []) (hstrip : pyStrip content ≠ [])
    (hB : count_tokens_approximate content ≤ maxTokens) :
    chunk_file maxTokens overlap ids jobId fp lang content
      = [⟨ids 0, jobId, fp, lang, 1, (splitNl content).length, content,
          count_tokens_approximate content⟩] := by
  unfold chunk_file
  rw [if_neg (fun h => h.elim hne hstrip)]
  dsimp only
  rw [if_pos hB]

/-- C5 (witness): a concrete two-character file within an 800-token budget
comes back as a single Unit covering its one line. -/
theorem chunk_file_single_chunk_witness :
    chunk_file 800 2 (fun _ => "chunk_dddddddddddddddd") "job" "f.py" "python" ['a', 'b']
      = [⟨"chunk_dddddddddddddddd", "job", "f.py", "python", 1, 1, ['a', 'b'], 0⟩] := by
  have h := chunk_file_single_chunk_when_under_budget 800 2
    (fun _ => "chunk_dddddddddddddddd") "job" "f.py" "python" ['a', 'b']
    (by decide) (by decide) (by decide)
  rw [h]
  decide

/-- C6 (counterexample): a whitespace-only single line can exceed the budget
too (nine spaces estimate to 1 token > B = 0), yet it is dropped by the
`not content.strip()` guard and yields zero Units — not "its own oversized
Unit" as the claim's instantiation states.  (The function still terminates,
as the amended theorem proves in general.) -/
theorem chunk_oversized_blank_line_counterexample :
    ('\n' ∉ List.replicate 9 ' ')
      ∧ 0 < count_tokens_approximate (List.replicate 9 ' ')
      ∧ chunk_file 0 2 (fun _ => "chunk_ffffffffffffffff") "job" "f.py" "python"
          (List.replicate 9 ' ') = [] := by
  refine ⟨by decide, by decide, by decide⟩

/-- C6 (amended): (1) the chunking cursor strictly advances on every loop iteration —
`_find_chunk_end` always answers strictly past `start` while lines remain,
and the cursor update `max (chunk_end - overlap) chunk_end` never falls below
`chunk_end` — so `chunk_file` terminates (it is a total function here by that
very argument); (2) a single line (no newline, not whitespace-only) whose
token estimate alone exceeds the budget is emitted as one oversized Unit
instead of looping forever. -/
theorem chunk_cursor_strictly_advances :
    (∀ (maxTokens : ℤ) (lines : List (List Char)) (start total : ℕ),
        start < total → start < find_chunk_end maxTokens lines start total)
    ∧ (∀ (maxTokens : ℤ) (overlap : ℕ) (ids : ℕ → String)
        (jobId fp lang : String) (line : List Char),
        '\n' ∉ line → pyStrip line ≠ [] →
        maxTokens < count_tokens_approximate line →
        chunk_file maxTokens overlap ids jobId fp lang line
          = [⟨ids 0, jobId, fp, lang, 1, 1, line ++ ['\n'],
              count_tokens_approximate (line ++ ['\n'])⟩]) := by
  constructor
  · exact find_chunk_end_gt
  · intro m o ids jobId fp lang line hnl hstrip hB
    have hne : line ≠ [] := by
      intro h
      rw [h] at hstrip
      exact hstrip rfl
    have haccum : accum_go m [line] 0 1 0 [] = 1 := by
      rw [accum_go, dif_pos (by omega : (0:ℕ) < 1)]
      dsimp only
      simp only [List.nil_append, List.getD_cons_zero, joinNl_single]
      rw [if_pos hB]
      omega
    have hfce : find_chunk_end m [line] 0 1 = 1 := by
      unfold find_chunk_end
      dsimp only
      rw [haccum, if_neg (by omega : ¬(0 + 1 < 1))]
    unfold chunk_file
    rw [if_neg (fun h => h.elim hne hstrip)]
    dsimp only
    rw [splitNl_eq_single hnl]
    simp only [List.length_singleton]
    rw [if_neg (not_le.mpr hB)]
    rw [chunk_loop]
    rw [dif_pos (by omega : (0:ℕ) < 1)]
    dsimp only
    rw [hfce]
    have hcontent : joinNl (([line].drop 0).take (1 - 0)) = line := by
      simp [joinNl_single]
    rw [hcontent]
    rw [if_pos ⟨hne, getLast?_ne_newline hnl⟩]
    have hnext : max (1 - o) 1 = 1 := Nat.max_eq_right (Nat.sub_le 1 o)
    rw [hnext, chunk_loop, dif_neg (lt_irrefl 1)]

/-- C6 (witness): the cursor-advance fact at a concrete position, and the
concrete single oversized line `"abcdefgh"` under budget `0` chunked into
exactly one Unit. -/
theorem chunk_cursor_strictly_advances_witness :
    0 < find_chunk_end 800 [['a']] 0 1
      ∧ chunk_file 0 2 (fun _ => "chunk_eeeeeeeeeeeeeeee") "job" "f.py" "python"
          "abcdefgh".toList
        = [⟨"chunk_eeeeeeeeeeeeeeee", "job", "f.py", "python", 1, 1,
            "abcdefgh".toList ++ ['\n'],
            count_tokens_approximate ("abcdefgh".toList ++ ['\n'])⟩] :=
  ⟨chunk_cursor_strictly_advances.1 800 [['a']] 0 1 (by decide),
   chunk_cursor_strictly_advances.2 0 2 (fun _ => "chunk_eeeeeeeeeeeeeeee")
     "job" "f.py" "python" "abcdefgh".toList (by decide) (by decide) (by decide)⟩

/-! ## `database.models` and `database.repositories.JobRepository`

`JobStatus`, `JobTimestamps`, `JobStats` and `Job` mirror
`src/backend/src/database/models.py` (datetimes are modelled as `ℕ` ticks;
the `files_by_language` dict as an association list; the MongoDB `_id` is
dropped as in `to_mongo_dict`).  The jobs collection is a list of `Job`
documents with unique `job_id` (there is a unique index on `job_id`);
`update_one` therefore touches the first match. -/

inductive JobStatus
  | pending
  | cloning
  | scanning
  | parsing
  | chunking
  | storing
  | completed
  | failed
deriving DecidableEq, Fintype

/-- `models.JobTimestamps`. -/
structure JobTimestamps where
  created_at : Option ℕ := none
  started_at : Option ℕ := none
  cloning_started_at : Option ℕ := none
  cloning_completed_at : Option ℕ := none
  scanning_started_at : Option ℕ := none
  scanning_completed_at : Option ℕ := none
  parsing_started_at : Option ℕ := none
  parsing_completed_at : Option ℕ := none
  chunking_started_at : Option ℕ := none
  chunking_completed_at : Option ℕ := none
  storing_started_at : Option ℕ := none
  storing_completed_at : Option ℕ := none
  completed_at : Option ℕ := none
  failed_at : Option ℕ := none
deriving DecidableEq

/-- `models.JobStats`. -/
structure JobStats where
  total_files : ℕ := 0
  processed_files : ℕ := 0
  total_chunks : ℕ := 0
  total_lines : ℕ := 0
  files_by_language : List (String × ℕ) := []
deriving DecidableEq

/-- `models.Job`. -/
structure Job where
  job_id : String
  repo_url : String
  repo_owner : String
  repo_name : String
  local_path : Option String := none
  status : JobStatus := .pending
  error_message : Option String := none
  timestamps : JobTimestamps := {}
  stats : JobStats := {}
deriving DecidableEq

/-- `JobRepository._get_timestamp_field` composed with the `$set` of
`timestamps.<field> = datetime.utcnow()`: every status maps to its
timestamp field (the dict covers all eight statuses). -/
def set_status_timestamp (ts : JobTimestamps) (st : JobStatus) (now : ℕ) : JobTimestamps :=
  match st with
  | .pending => { ts with created_at := some now }
  | .cloning => { ts with cloning_started_at := some now }
  | .scanning => { ts with scanning_started_at := some now }
  | .parsing => { ts with parsing_started_at := some now }
  | .chunking => { ts with chunking_started_at := some now }
  | .storing => { ts with storing_started_at := some now }
  | .completed => { ts with completed_at := some now }
  | .failed => { ts with failed_at := some now }

/-- The `$set` document built by `JobRepository.update_job_status`, applied to
one job: status, the status's timestamp, and — Python truthiness: only when
`error_message` is a non-empty string — the error message. -/
def apply_status_update (j : Job) (st : JobStatus) (errMsg : Option String) (now : ℕ) : Job :=
  let j1 := { j with status := st, timestamps := set_status_timestamp j.timestamps st now }
  match errMsg with
  | some e => if e ≠ "" then { j1 with error_message := some e } else j1
  | none => j1

/-- `JobRepository.get_job` (`find_one({"job_id": job_id})`). -/
def get_job (db : List Job) (jobId : String) : Option Job :=
  db.find? (fun j => j.job_id == jobId)

/-- `JobRepository.update_job_status`: `update_one` on the first `job_id`
match; the returned Boolean is `modified_count > 0` (false when no document
matched, and also when the `$set` left the document unchanged). -/
def update_job_status : List Job → String → JobStatus → Option String → ℕ → List Job × Bool
  | [], _, _, _, _ => ([], false)
  | j :: rest, jobId, st, errMsg, now =>
    if j.job_id = jobId then
      let j2 := apply_status_update j st errMsg now
      (j2 :: rest, decide (j2 ≠ j))
    else
      let r := update_job_status rest jobId st errMsg now
      (j :: r.1, r.2)

/-- `apply_status_update` never touches `job_id`. -/
theorem apply_status_update_job_id (j : Job) (st : JobStatus) (e : Option String) (t : ℕ) :
    (apply_status_update j st e t).job_id = j.job_id := by
  unfold apply_status_update
  cases e with
  | none => rfl
  | some s =>
    dsimp only
    split <;> rfl

/-- Re-applying the same `$set` at a later tick supersedes the earlier one. -/
theorem apply_status_update_comp (j : Job) (st : JobStatus) (e : Option String) (t1 t2 : ℕ) :
    apply_status_update (apply_status_update j st e t1) st e t2
      = apply_status_update j st e t2 := by
  cases e with
  | none => cases st <;> rfl
  | some s =>
    by_cases hs : s = ""
    · subst hs
      cases st <;> rfl
    · cases st <;> simp [apply_status_update, set_status_timestamp, hs]

/-- C7 (counterexample): calling `update_job_status` twice with the same
status is not timestamp-preserving — the second call overwrites the phase
timestamp (`timestamps.cloning_started_at` here) with the later wall-clock
value, so the claim's "no ... changed phase timestamp" fails. -/
theorem update_job_status_repeat_timestamp_counterexample :
    let job0 : Job := { job_id := "job-1", repo_url := "u", repo_owner := "o", repo_name := "n" }
    let db1 := (update_job_status [job0] "job-1" .cloning none 1).1
    let db2 := (update_job_status db1 "job-1" .cloning none 2).1
    (get_job db1 "job-1").map (fun j => j.timestamps.cloning_started_at) = some (some 1)
      ∧ (get_job db2 "job-1").map (fun j => j.timestamps.cloning_started_at) = some (some 2) := by
  decide

/-- C7 (amended): `update_job_status` for a missing job id is a no-op that
returns `false` rather than an error; calling it twice with the same status
(and same error message) is idempotent up to refreshing the phase timestamp
to the later call's clock — the double update leaves exactly the state of a
single update at the later tick, with no duplicate timestamp field and no
error. -/
theorem update_job_status_idempotent_amended :
    (∀ (db : List Job) (jobId : String) (st : JobStatus) (e : Option String) (now : ℕ),
        get_job db jobId = none → update_job_status db jobId st e now = (db, false))
    ∧ (∀ (db : List Job) (jobId : String) (st : JobStatus) (e : Option String) (t1 t2 : ℕ),
        (update_job_status (update_job_status db jobId st e t1).1 jobId st e t2).1
          = (update_job_status db jobId st e t2).1) := by
  constructor
  · intro db jobId st e now hnone
    induction db with
    | nil => rfl
    | cons j rest ih =>
      by_cases hj : j.job_id = jobId
      · exact absurd hnone (by simp [get_job, List.find?_cons_of_pos, hj])
      · have hrest : get_job rest jobId = none := by
          rw [get_job] at hnone ⊢
          rwa [List.find?_cons_of_neg _ (by simp [hj])] at hnone
        rw [update_job_status, if_neg hj]
        dsimp only
        rw [ih hrest]
  · intro db jobId st e t1 t2
    induction db with
    | nil => rfl
    | cons j rest ih =>
      by_cases h : j.job_id = jobId
      · simp only [update_job_status, h, if_pos, ite_true, if_true,
          apply_status_update_job_id, apply_status_update_comp]
      · simp only [update_job_status, h, ite_false, if_false]
        rw [ih]

/-- C7 (witness): the amended statement at concrete inputs — updating a
missing job id is a no-op returning `false`, and a repeated `CLONING` update
equals a single update at the later tick. -/
theorem update_job_status_idempotent_amended_witness :
    update_job_status [] "job-x" .cloning none 5 = ([], false)
      ∧ (update_job_status
            (update_job_status
              [({ job_id := "job-1", repo_url := "u", repo_owner := "o", repo_name := "n" } : Job)]
              "job-1" .cloning none 1).1
            "job-1" .cloning none 2).1
          = (update_job_status
              [({ job_id := "job-1", repo_url := "u", repo_owner := "o", repo_name := "n" } : Job)]
              "job-1" .cloning none 2).1 :=
  ⟨update_job_status_idempotent_amended.1 [] "job-x" .cloning none 5 rfl,
   update_job_status_idempotent_amended.2
     [({ job_id := "job-1", repo_url := "u", repo_owner := "o", repo_name := "n" } : Job)]
     "job-1" .cloning none 1 2⟩

/-! ## `api.routes.ingestion.run_ingestion_pipeline` as a status trace

`ingest_repository` creates each job fresh with status `PENDING` and starts
exactly one background `run_ingestion_pipeline` for it.  The pipeline issues
`update_job_status` calls in the fixed order CLONING, SCANNING, PARSING,
CHUNKING, STORING, COMPLETED; any `IngestionError` or unexpected exception
aborts the remaining stages and issues a single final FAILED (per-file parse
and chunk errors are swallowed by the inner `try`/`continue` and do not
abort).  We model a run as the list of statuses it writes, parametrised by
the point at which the environment (git clone, file walker, database, ...)
raises, if any: `failAfter = some i` means the run raised after the first
`i` working-status writes succeeded. -/

/-- The working statuses, in the order `run_ingestion_pipeline` writes them. -/
def work_statuses : List JobStatus :=
  [.cloning, .scanning, .parsing, .chunking, .storing]

/-- The sequence of statuses one `run_ingestion_pipeline` run writes. -/
def run_ingestion_pipeline_trace (failAfter : Option (Fin 6)) : List JobStatus :=
  match failAfter with
  | some i => work_statuses.take i ++ [.failed]
  | none => work_statuses ++ [.completed]

/-- The successor in the spec's phase order, `none` for terminal states. -/
def next_phase : JobStatus → Option JobStatus
  | .pending => some .cloning
  | .cloning => some .scanning
  | .scanning => some .parsing
  | .parsing => some .chunking
  | .chunking => some .storing
  | .storing => some .completed
  | .completed => none
  | .failed => none

/-- Terminal statuses. -/
def is_terminal : JobStatus → Bool
  | .completed => true
  | .failed => true
  | _ => false

/-- The spec's allowed transition: either the next phase in order, or a jump
to FAILED from a non-terminal state. -/
def spec_transition (a b : JobStatus) : Prop :=
  next_phase a = some b ∨ (b = .failed ∧ is_terminal a = false)

instance : DecidableRel spec_transition := fun a b =>
  inferInstanceAs (Decidable (next_phase a = some b ∨ (b = .failed ∧ is_terminal a = false)))

/-- Executable check that a status list is a `spec_transition`-chain. -/
def chain_ok : JobStatus → List JobStatus → Bool
  | _, [] => true
  | a, b :: rest => decide (spec_transition a b) && chain_ok b rest

/-- `chain_ok` decides `List.Chain spec_transition`. -/
theorem chain_ok_iff (a : JobStatus) (l : List JobStatus) :
    chain_ok a l = true ↔ List.Chain spec_transition a l := by
  induction l generalizing a with
  | nil => simp [chain_ok]
  | cons b rest ih => simp [chain_ok, List.chain_cons, ih]

/-- C8: every status trace the ingestion pipeline can write — wherever the
environment makes it fail, if at all — follows the phase order
PENDING→CLONING→SCANNING→PARSING→CHUNKING→STORING→COMPLETED except for a
jump to FAILED from a non-terminal state; the trace ends in a terminal
status, and no terminal status occurs before the end (so a terminal job is
never updated again by the pipeline). -/
theorem run_ingestion_pipeline_phase_order :
    ∀ failAfter : Option (Fin 6),
      List.Chain spec_transition .pending (run_ingestion_pipeline_trace failAfter)
        ∧ run_ingestion_pipeline_trace failAfter ≠ []
        ∧ is_terminal ((run_ingestion_pipeline_trace failAfter).getLastD .failed) = true
        ∧ (run_ingestion_pipeline_trace failAfter).dropLast.all
            (fun s => !(is_terminal s)) = true := by
  have hall : ∀ failAfter : Option (Fin 6),
      chain_ok .pending (run_ingestion_pipeline_trace failAfter) = true
        ∧ run_ingestion_pipeline_trace failAfter ≠ []
        ∧ is_terminal ((run_ingestion_pipeline_trace failAfter).getLastD .failed) = true
        ∧ (run_ingestion_pipeline_trace failAfter).dropLast.all
            (fun s => !(is_terminal s)) = true := by
    decide
  intro failAfter
  obtain ⟨h1, h2, h3, h4⟩ := hall failAfter
  exact ⟨(chain_ok_iff _ _).mp h1, h2, h3, h4⟩

/-! ## `embeddings.vector_store.VectorStore`

Embedding vectors are `List ℚ` (numpy `float32` idealised as exact
rationals).  The fallback search compares cosine similarities
`score = dot(q̂, ĉ) = dot(q,c) / sqrt(normSq q * normSq c)`; to keep the
model executable over `ℚ` we represent each score by the strictly
increasing transform `g x = sign x * x^2`, i.e. by the rational key
`sign d * d^2 / (normSq q * normSq c)` (`cos_key`), and a threshold `t` by
`g t = sign t * t^2` (`threshold_key`).  Since `g` is strictly increasing,
every comparison the source performs on scores (`score >= threshold`,
`score < threshold`, and the sort comparisons) holds for the keys exactly
when it holds for the real-valued cosines, so ranking and filtering are
modelled exactly; `cos_key_le_iff`/`threshold_key_le_iff` below certify
this against the real-valued formulas. -/

/-- The projection of a stored embedding document that
`_fallback_similarity_search` reads (the `metadata` passthrough is
omitted). -/
structure EmbeddingDocument where
  job_id : String
  chunk_id : String
  file_path : String
  content : String
  embedding : List ℚ
  language : Option String := none
  start_line : Option ℕ := none
  end_line : Option ℕ := none
deriving DecidableEq

/-- `vector_store.SearchResult`; `score` carries the `cos_key`
representation of the similarity score. -/
structure SearchResult where
  chunk_id : String
  job_id : String
  file_path : String
  content : String
  score : ℚ
  language : Option String := none
  start_line : Option ℕ := none
  end_line : Option ℕ := none
deriving DecidableEq

/-- `np.dot` on rational vectors. -/
def dot (a b : List ℚ) : ℚ :=
  (List.zipWith (fun x y => x * y) a b).sum

/-- Squared L2 norm: `np.linalg.norm(v) ** 2`.  Over `ℚ` the source's
`norm == 0` / `norm > 0` tests are exactly `normSq = 0` / `normSq ≠ 0`. -/
def normSq (a : List ℚ) : ℚ := dot a a

/-- The score key `g (cos q c)` with `g x = sign x * x^2`:
`cos q c = dot q c / sqrt (normSq q * normSq c)`, so
`g (cos q c) = sign (dot q c) * (dot q c)^2 / (normSq q * normSq c)`. -/
def cos_key (q c : List ℚ) : ℚ :=
  let d := dot q c
  let m := normSq q * normSq c
  if 0 ≤ d then d ^ 2 / m else -(d ^ 2 / m)

/-- The image `g t` of a threshold under the same strictly increasing
transform. -/
def threshold_key (t : ℚ) : ℚ :=
  if 0 ≤ t then t ^ 2 else -(t ^ 2)

/-- Builds a `SearchResult` from a stored document and its score, exactly as
both search paths do. -/
def mk_search_result (r : EmbeddingDocument) (s : ℚ) : SearchResult :=
  ⟨r.chunk_id, r.job_id, r.file_path, r.content, s, r.language, r.start_line, r.end_line⟩

/-- One insertion step of the (stable, descending-by-score) sort.  An
element is inserted before the first element of strictly smaller score, i.e.
after every earlier element of greater-or-equal score — the behaviour of
Python's stable `list.sort(key=score, reverse=True)`. -/
def insert_desc (x : ℚ × EmbeddingDocument) :
    List (ℚ × EmbeddingDocument) → List (ℚ × EmbeddingDocument)
  | [] => [x]
  | y :: ys => if y.1 ≤ x.1 then x :: y :: ys else y :: insert_desc x ys

/-- Stable descending sort by score (extensionally equal to any stable sort,
in particular to Python's timsort with `reverse=True`). -/
def sort_desc : List (ℚ × EmbeddingDocument) → List (ℚ × EmbeddingDocument)
  | [] => []
  | x :: xs => insert_desc x (sort_desc xs)

/-- `VectorStore._fallback_similarity_search(query_vector, job_id, top_k,
score_threshold)` over the stored documents `records`:

```python
cursor = collection.find({"job_id": job_id}, ...)
if query_norm == 0: return []
for doc in cursor:
    if not embedding: continue
    if doc_norm > 0:
        score = dot(query/||query||, doc/||doc||)
        if score >= score_threshold: scored_results.append((score, doc))
scored_results.sort(key=lambda x: x[0], reverse=True)
return [SearchResult(...) for score, doc in scored_results[:top_k]]
```
-/
def fallback_similarity_search (q : List ℚ) (records : List EmbeddingDocument)
    (jobId : String) (k : ℕ) (t : ℚ) : List SearchResult :=
  let docs := records.filter (fun r => r.job_id == jobId)
  if normSq q = 0 then []
  else
    let scored := docs.filterMap (fun r =>
      if r.embedding = [] then none
      else if normSq r.embedding = 0 then none
      else if threshold_key t ≤ cos_key q r.embedding
        then some (cos_key q r.embedding, r) else none)
    ((sort_desc scored).take k).map (fun p => mk_search_result p.2 p.1)

/-- Modelled from the spec: the MongoDB Atlas `$vectorSearch` stage is not
part of this repository (it runs server-side in Atlas).  Per the spec it is
an accelerated index over the job-scoped records that "answers top-k cosine
queries", exact on datasets small enough for brute force to be
authoritative: the job filter is enforced at the index level, every indexed
(non-empty, non-zero) vector is scored by cosine similarity, and the `limit
top_k` best matches come back in descending score order.  Stored document
order is kept for tied scores. -/
def atlas_search_stage (q : List ℚ) (records : List EmbeddingDocument)
    (jobId : String) (k : ℕ) : List (ℚ × EmbeddingDocument) :=
  let docs := records.filter (fun r => r.job_id == jobId)
  let cands := docs.filterMap (fun r =>
    if r.embedding = [] then none
    else if normSq r.embedding = 0 then none
    else some (cos_key q r.embedding, r))
  (sort_desc cands).take k

/-- `VectorStore._atlas_vector_search`: run the `$vectorSearch` pipeline,
then drop results with `score < score_threshold` (the Python `continue`). -/
def atlas_vector_search (q : List ℚ) (records : List EmbeddingDocument)
    (jobId : String) (k : ℕ) (t : ℚ) : List SearchResult :=
  (atlas_search_stage q records jobId k).filterMap (fun p =>
    if p.1 < threshold_key t then none else some (mk_search_result p.2 p.1))

/-- `VectorStore.similarity_search`: try the Atlas path; on
`OperationFailure` (modelled `.error`) or an empty result list, run the
brute-force fallback (`if results: return results`). -/
def similarity_search (atlasOutcome : Except Unit (List SearchResult))
    (q : List ℚ) (records : List EmbeddingDocument) (jobId : String)
    (k : ℕ) (t : ℚ) : List SearchResult :=
  match atlasOutcome with
  | .ok results => if results = [] then fallback_similarity_search q records jobId k t else results
  | .error _ => fallback_similarity_search q records jobId k t

/-- C10: when the accelerated path succeeds but returns no results,
`similarity_search` falls through to the brute-force fallback and returns
its results, exactly as it does on an `OperationFailure`; an empty
accelerated result list is never returned directly. -/
theorem similarity_search_empty_atlas_falls_back
    (q : List ℚ) (records : List EmbeddingDocument) (jobId : String) (k : ℕ) (t : ℚ) :
    similarity_search (.ok []) q records jobId k t
        = fallback_similarity_search q records jobId k t
      ∧ similarity_search (.error ()) q records jobId k t
        = fallback_similarity_search q records jobId k t
      ∧ (∀ rs : List SearchResult, rs ≠ [] →
          similarity_search (.ok rs) q records jobId k t = rs) :=
  ⟨rfl, rfl, fun rs h => by
    unfold similarity_search
    dsimp only
    rw [if_neg h]⟩

/-- C10 (witness): the fall-through on an empty accelerated result and the
direct return of a non-empty one, at concrete inputs. -/
theorem similarity_search_empty_atlas_falls_back_witness :
    similarity_search (.ok []) [1] [] "j" 1 1 = fallback_similarity_search [1] [] "j" 1 1
      ∧ similarity_search (.ok [⟨"u", "j", "f", "c", 1, none, none, none⟩]) [1] [] "j" 1 1
        = [⟨"u", "j", "f", "c", 1, none, none, none⟩] :=
  ⟨(similarity_search_empty_atlas_falls_back [1] [] "j" 1 1).1,
   (similarity_search_empty_atlas_falls_back [1] [] "j" 1 1).2.2
     [⟨"u", "j", "f", "c", 1, none, none, none⟩] (List.cons_ne_nil _ _)⟩

/-! ### Order facts about the stable descending sort -/

/-- Descending-by-score sortedness. -/
abbrev SortedDesc (l : List (ℚ × EmbeddingDocument)) : Prop :=
  List.Pairwise (fun a b => b.1 ≤ a.1) l

theorem mem_insert_desc {a x : ℚ × EmbeddingDocument} {l : List (ℚ × EmbeddingDocument)} :
    a ∈ insert_desc x l ↔ a = x ∨ a ∈ l := by
  induction l with
  | nil => simp [insert_desc]
  | cons y ys ih =>
    rw [insert_desc]
    split
    · simp [List.mem_cons]
    · simp only [List.mem_cons, ih]
      tauto

theorem insert_desc_eq_cons {x : ℚ × EmbeddingDocument} {l : List (ℚ × EmbeddingDocument)}
    (h : ∀ z ∈ l, z.1 ≤ x.1) : insert_desc x l = x :: l := by
  cases l with
  | nil => rfl
  | cons y ys => exact if_pos (h y (List.mem_cons_self y ys))

theorem sorted_insert_desc {x : ℚ × EmbeddingDocument} {l : List (ℚ × EmbeddingDocument)}
    (h : SortedDesc l) : SortedDesc (insert_desc x l) := by
  induction l with
  | nil => simp [insert_desc]
  | cons y ys ih =>
    obtain ⟨hy, hys⟩ := List.pairwise_cons.mp h
    rw [insert_desc]
    split
    · rename_i hyx
      refine List.pairwise_cons.mpr ⟨?_, h⟩
      intro b hb
      rcases List.mem_cons.mp hb with hb | hb
      · exact hb ▸ hyx
      · exact le_trans (hy b hb) hyx
    · rename_i hyx
      refine List.pairwise_cons.mpr ⟨?_, ih hys⟩
      intro b hb
      rcases mem_insert_desc.mp hb with hb | hb
      · exact hb ▸ le_of_not_le hyx
      · exact hy b hb

theorem sorted_sort_desc (l : List (ℚ × EmbeddingDocument)) : SortedDesc (sort_desc l) := by
  induction l with
  | nil => exact List.Pairwise.nil
  | cons x xs ih => exact sorted_insert_desc ih

theorem mem_sort_desc {a : ℚ × EmbeddingDocument} {l : List (ℚ × EmbeddingDocument)} :
    a ∈ sort_desc l ↔ a ∈ l := by
  induction l with
  | nil => simp [sort_desc]
  | cons x xs ih =>
    rw [sort_desc, mem_insert_desc, ih, List.mem_cons]

/-- A predicate that is upward closed along the score (true of anything
scoring at least as much as something it holds of) — e.g. `score ≥ t`. -/
def UpwardClosed (pb : ℚ × EmbeddingDocument → Bool) : Prop :=
  ∀ a b : ℚ × EmbeddingDocument, b.1 ≤ a.1 → pb b = true → pb a = true

/-- Filtering by an upward-closed predicate commutes with stable insertion
into a descending-sorted list. -/
theorem filter_insert_desc {pb : ℚ × EmbeddingDocument → Bool} (hp : UpwardClosed pb)
    {x : ℚ × EmbeddingDocument} {l : List (ℚ × EmbeddingDocument)} (hl : SortedDesc l) :
    (insert_desc x l).filter pb
      = if pb x then insert_desc x (l.filter pb) else l.filter pb := by
  induction hl with
  | nil =>
    simp only [insert_desc, List.filter_cons, List.filter_nil]
  | cons h1 _h2 ih =>
    rename_i y ys
    rw [insert_desc]
    split
    · rename_i hyx
      rw [List.filter_cons]
      cases hx : pb x with
      | true =>
        rw [if_pos rfl, if_pos rfl, insert_desc_eq_cons]
        intro z hz
        obtain ⟨hw, _⟩ := List.mem_filter.mp hz
        rcases List.mem_cons.mp hw with h | h
        · exact h ▸ hyx
        · exact le_trans (h1 z h) hyx
      | false =>
        rw [if_neg Bool.false_ne_true, if_neg Bool.false_ne_true]
    · rename_i hyx
      rw [List.filter_cons, ih, List.filter_cons]
      cases hx : pb x with
      | true =>
        cases hy : pb y with
        | true =>
          simp only [if_pos rfl, if_true]
          rw [show insert_desc x (y :: List.filter pb ys)
                = if y.1 ≤ x.1 then x :: y :: List.filter pb ys
                  else y :: insert_desc x (List.filter pb ys) from rfl,
            if_neg hyx]
        | false =>
          exact absurd (hp y x (le_of_not_le hyx) hx)
            (by rw [hy]; exact Bool.false_ne_true)
      | false =>
        simp only [if_neg Bool.false_ne_true]

/-- A stable sort commutes with filtering. -/
theorem filter_sort_desc {pb : ℚ × EmbeddingDocument → Bool} (hp : UpwardClosed pb)
    (l : List (ℚ × EmbeddingDocument)) :
    (sort_desc l).filter pb = sort_desc (l.filter pb) := by
  induction l with
  | nil => rfl
  | cons x xs ih =>
    rw [sort_desc, filter_insert_desc hp (sorted_sort_desc xs), List.filter_cons]
    cases hx : pb x with
    | true => rw [if_pos rfl, if_pos rfl, sort_desc, ih]
    | false =>
      rw [if_neg Bool.false_ne_true, if_neg Bool.false_ne_true]
      exact ih

/-- On a descending-sorted list, an upward-closed filter keeps exactly a
prefix: it equals `takeWhile`. -/
theorem filter_eq_takeWhile_of_sorted {pb : ℚ × EmbeddingDocument → Bool}
    (hp : UpwardClosed pb) {l : List (ℚ × EmbeddingDocument)} (hl : SortedDesc l) :
    l.filter pb = l.takeWhile pb := by
  induction hl with
  | nil => rfl
  | cons h1 _h2 ih =>
    rename_i y ys
    rw [List.filter_cons, List.takeWhile_cons]
    cases hy : pb y with
    | true => rw [if_pos rfl, if_pos rfl, ih]
    | false =>
      rw [if_neg Bool.false_ne_true, if_neg Bool.false_ne_true]
      rw [List.filter_eq_nil_iff]
      intro a ha hpa
      exact absurd (hp y a (h1 a ha) hpa) (by rw [hy]; exact Bool.false_ne_true)

/-- `takeWhile` commutes with `take`. -/
theorem takeWhile_take {α : Type} (pb : α → Bool) :
    ∀ (k : ℕ) (l : List α), (l.take k).takeWhile pb = (l.takeWhile pb).take k
  | 0, l => by simp
  | k + 1, [] => by simp
  | k + 1, x :: xs => by
    rw [List.take_succ_cons, List.takeWhile_cons, List.takeWhile_cons]
    cases hx : pb x with
    | true => rw [if_pos rfl, if_pos rfl, List.take_succ_cons, takeWhile_take pb k xs]
    | false => rw [if_neg Bool.false_ne_true, if_neg Bool.false_ne_true, List.take_nil]

theorem normSq_nonneg : ∀ q : List ℚ, 0 ≤ normSq q
  | [] => le_refl 0
  | a :: as => by
    have h := normSq_nonneg as
    unfold normSq dot at h ⊢
    rw [List.zipWith_cons_cons, List.sum_cons]
    exact add_nonneg (mul_self_nonneg a) h

/-- Over `ℚ`, a vector of squared norm `0` is the zero vector, so it has dot
product `0` with everything. -/
theorem dot_eq_zero_of_normSq_eq_zero : ∀ q c : List ℚ, normSq q = 0 → dot q c = 0
  | [], _, _ => rfl
  | _ :: _, [], _ => rfl
  | a :: as, b :: bs, h => by
    have hn := normSq_nonneg as
    have h' : a * a + normSq as = 0 := by
      unfold normSq dot at h ⊢
      rw [List.zipWith_cons_cons, List.sum_cons] at h
      exact h
    have hS : normSq as = 0 := le_antisymm (by nlinarith [mul_self_nonneg a]) hn
    have ha : a = 0 := by
      have : a * a = 0 := by linarith
      exact mul_self_eq_zero.mp this
    unfold dot
    rw [List.zipWith_cons_cons, List.sum_cons]
    have hrec : dot as bs = 0 := dot_eq_zero_of_normSq_eq_zero as bs hS
    unfold dot at hrec
    rw [hrec, ha]
    ring

/-- The threshold test `score >= t` is upward closed along the score. -/
theorem upward_threshold (t : ℚ) :
    UpwardClosed (fun p => decide (threshold_key t ≤ p.1)) := by
  intro a b hle hb
  simp only [decide_eq_true_eq] at hb ⊢
  exact le_trans hb hle

/-- The fallback's accumulation loop (skip empty and zero vectors, score,
test against the threshold) is the plain scoring pass followed by the
threshold filter. -/
theorem scored_eq_cands_filter (q : List ℚ) (t : ℚ) (docs : List EmbeddingDocument) :
    docs.filterMap (fun r =>
        if r.embedding = [] then none
        else if normSq r.embedding = 0 then none
        else if threshold_key t ≤ cos_key q r.embedding
          then some (cos_key q r.embedding, r) else none)
      = (docs.filterMap (fun r =>
          if r.embedding = [] then none
          else if normSq r.embedding = 0 then none
          else some (cos_key q r.embedding, r))).filter
          (fun p => decide (threshold_key t ≤ p.1)) := by
  induction docs with
  | nil => rfl
  | cons r rest ih =>
    rw [List.filterMap_cons, List.filterMap_cons]
    by_cases h1 : r.embedding = []
    · rw [if_pos h1, if_pos h1, ih]
    · rw [if_neg h1, if_neg h1]
      by_cases h2 : normSq r.embedding = 0
      · rw [if_pos h2, if_pos h2, ih]
      · rw [if_neg h2, if_neg h2, List.filter_cons]
        by_cases h3 : threshold_key t ≤ cos_key q r.embedding
        · rw [if_pos h3, if_pos (by simpa using h3), ih]
        · rw [if_neg h3, if_neg (by simpa using h3), ih]

/-- The Python-side `if score < score_threshold: continue` over the Atlas
stage output is the threshold filter followed by result construction. -/
theorem atlas_post_filter_eq (t : ℚ) (l : List (ℚ × EmbeddingDocument)) :
    l.filterMap (fun p =>
        if p.1 < threshold_key t then none else some (mk_search_result p.2 p.1))
      = (l.filter (fun p => decide (threshold_key t ≤ p.1))).map
          (fun p => mk_search_result p.2 p.1) := by
  induction l with
  | nil => rfl
  | cons p rest ih =>
    rw [List.filterMap_cons, List.filter_cons]
    by_cases h : p.1 < threshold_key t
    · rw [if_pos h, if_neg (by simpa using not_le_of_lt h), ih]
    · rw [if_neg h, if_pos (by simpa using not_lt.mp h), List.map_cons, ih]

/-- C2 (amended): on any record set, query, `k` and threshold — with a
positive threshold, or any threshold when the query vector is non-zero —
the (spec-modelled) accelerated Atlas path and the brute-force fallback of
`similarity_search` return the same results in the same ranked order.  Ties
in score are broken by stored document order (the order both the fallback
cursor and the model of the index visit the records), not by unit id. -/
theorem atlas_fallback_rank_equivalence (q : List ℚ) (records : List EmbeddingDocument)
    (jobId : String) (k : ℕ) (t : ℚ) (h : 0 < t ∨ normSq q ≠ 0) :
    atlas_vector_search q records jobId k t
      = fallback_similarity_search q records jobId k t := by
  unfold atlas_vector_search atlas_search_stage fallback_similarity_search
  dsimp only
  by_cases hq : normSq q = 0
  · have ht : 0 < t := h.resolve_right (fun hb => hb hq)
    rw [if_pos hq, List.filterMap_eq_nil_iff]
    intro p hp
    have hpc := mem_sort_desc.mp (List.mem_of_mem_take hp)
    obtain ⟨r, _, hfr⟩ := List.mem_filterMap.mp hpc
    by_cases h1 : r.embedding = []
    · rw [if_pos h1] at hfr
      exact absurd hfr (by simp)
    · rw [if_neg h1] at hfr
      by_cases h2 : normSq r.embedding = 0
      · rw [if_pos h2] at hfr
        exact absurd hfr (by simp)
      · rw [if_neg h2] at hfr
        have hp1 : p.1 = cos_key q r.embedding := by
          rw [← Option.some.inj hfr]
        have hkey : cos_key q r.embedding = 0 := by
          unfold cos_key
          dsimp only
          rw [dot_eq_zero_of_normSq_eq_zero q r.embedding hq, if_pos (le_refl 0)]
          norm_num
        have htk : (0 : ℚ) < threshold_key t := by
          unfold threshold_key
          rw [if_pos (le_of_lt ht)]
          positivity
        rw [if_pos (by rw [hp1, hkey]; exact htk)]
  · rw [if_neg hq]
    rw [atlas_post_filter_eq]
    have hsorted := sorted_sort_desc (List.filterMap (fun r =>
      if r.embedding = [] then none
      else if normSq r.embedding = 0 then none
      else some (cos_key q r.embedding, r)) (records.filter (fun r => r.job_id == jobId)))
    have hsortedTake : SortedDesc (List.take k (sort_desc (List.filterMap (fun r =>
        if r.embedding = [] then none
        else if normSq r.embedding = 0 then none
        else some (cos_key q r.embedding, r)) (records.filter (fun r => r.job_id == jobId))))) :=
      List.Pairwise.sublist (List.take_sublist _ _) hsorted
    rw [filter_eq_takeWhile_of_sorted (upward_threshold t) hsortedTake,
      takeWhile_take, ← filter_eq_takeWhile_of_sorted (upward_threshold t) hsorted,
      filter_sort_desc (upward_threshold t), ← scored_eq_cands_filter]

/-! ### Faithfulness of the score-key representation

The keys are the image of the real-valued cosine scores under the strictly
increasing map `g x = x * |x|`, so `≤`/`<` comparisons of keys coincide
with comparisons of the scores the floating-point code computes. -/

/-- The sign-square transform `g x = x * |x|` is strictly monotone. -/
theorem sign_sq_strictMono : StrictMono (fun x : ℝ => x * |x|) := by
  intro a b hab
  dsimp only
  rcases le_or_lt 0 a with ha | ha
  · have hb : 0 < b := lt_of_le_of_lt ha hab
    rw [abs_of_nonneg ha, abs_of_pos hb]
    nlinarith
  · rcases le_or_lt 0 b with hb | hb
    · have h1 : a * |a| < 0 := by
        rw [abs_of_neg ha]
        nlinarith
      have h2 : 0 ≤ b * |b| := by
        rw [abs_of_nonneg hb]
        nlinarith
      linarith
    · rw [abs_of_neg ha, abs_of_neg hb]
      nlinarith

/-- The rational key is the image under `g` of the real score `d / √m`. -/
theorem key_cast_eq (d m : ℚ) (hm : 0 < (m : ℝ)) :
    ((if 0 ≤ d then d ^ 2 / m else -(d ^ 2 / m) : ℚ) : ℝ)
      = ((d : ℝ) / Real.sqrt (m : ℝ)) * |(d : ℝ) / Real.sqrt (m : ℝ)| := by
  have hs : 0 < Real.sqrt (m : ℝ) := Real.sqrt_pos.mpr hm
  rcases le_or_lt 0 d with hd | hd
  · rw [if_pos hd, abs_of_nonneg (div_nonneg (by exact_mod_cast hd) hs.le)]
    push_cast
    rw [div_mul_div_comm, Real.mul_self_sqrt hm.le]
    ring
  · rw [if_neg (not_le.mpr hd),
      abs_of_neg (div_neg_of_neg_of_pos (by exact_mod_cast hd) hs)]
    push_cast
    rw [mul_neg, div_mul_div_comm, Real.mul_self_sqrt hm.le]
    ring

/-- The rational threshold key is the image of the threshold under `g`. -/
theorem threshold_key_cast (t : ℚ) :
    ((threshold_key t : ℚ) : ℝ) = (t : ℝ) * |(t : ℝ)| := by
  unfold threshold_key
  rcases le_or_lt 0 t with h | h
  · rw [if_pos h, abs_of_nonneg (by exact_mod_cast h)]
    push_cast
    ring
  · rw [if_neg (not_le.mpr h), abs_of_neg (by exact_mod_cast h)]
    push_cast
    ring

/-- The threshold test on keys is exactly the test `t ≤ cos(q, c)` on the
real-valued cosine of non-zero vectors. -/
theorem threshold_key_le_iff (q c : List ℚ) (t : ℚ)
    (hq : normSq q ≠ 0) (hc : normSq c ≠ 0) :
    (threshold_key t ≤ cos_key q c
      ↔ (t : ℝ) ≤ (dot q c : ℝ) / Real.sqrt ((normSq q : ℝ) * (normSq c : ℝ))) := by
  have hmq : 0 < normSq q := lt_of_le_of_ne (normSq_nonneg q) (Ne.symm hq)
  have hmc : 0 < normSq c := lt_of_le_of_ne (normSq_nonneg c) (Ne.symm hc)
  have hm : 0 < ((normSq q * normSq c : ℚ) : ℝ) := by
    exact_mod_cast mul_pos hmq hmc
  have hcast : ((normSq q : ℝ) * (normSq c : ℝ)) = ((normSq q * normSq c : ℚ) : ℝ) := by
    push_cast
    ring
  rw [← Rat.cast_le (K := ℝ), hcast]
  unfold cos_key
  rw [threshold_key_cast, key_cast_eq (dot q c) (normSq q * normSq c) hm]
  exact sign_sq_strictMono.le_iff_le

/-- Comparing two candidates by key is exactly comparing their real-valued
cosine scores against the same query. -/
theorem cos_key_le_iff (q c1 c2 : List ℚ)
    (hq : normSq q ≠ 0) (hc1 : normSq c1 ≠ 0) (hc2 : normSq c2 ≠ 0) :
    (cos_key q c1 ≤ cos_key q c2
      ↔ (dot q c1 : ℝ) / Real.sqrt ((normSq q : ℝ) * (normSq c1 : ℝ))
          ≤ (dot q c2 : ℝ) / Real.sqrt ((normSq q : ℝ) * (normSq c2 : ℝ))) := by
  have hmq : 0 < normSq q := lt_of_le_of_ne (normSq_nonneg q) (Ne.symm hq)
  have hm1 : 0 < ((normSq q * normSq c1 : ℚ) : ℝ) := by
    exact_mod_cast mul_pos hmq (lt_of_le_of_ne (normSq_nonneg c1) (Ne.symm hc1))
  have hm2 : 0 < ((normSq q * normSq c2 : ℚ) : ℝ) := by
    exact_mod_cast mul_pos hmq (lt_of_le_of_ne (normSq_nonneg c2) (Ne.symm hc2))
  have hcast1 : ((normSq q : ℝ) * (normSq c1 : ℝ)) = ((normSq q * normSq c1 : ℚ) : ℝ) := by
    push_cast
    ring
  have hcast2 : ((normSq q : ℝ) * (normSq c2 : ℝ)) = ((normSq q * normSq c2 : ℚ) : ℝ) := by
    push_cast
    ring
  rw [← Rat.cast_le (K := ℝ), hcast1, hcast2]
  unfold cos_key
  rw [key_cast_eq (dot q c1) (normSq q * normSq c1) hm1,
    key_cast_eq (dot q c2) (normSq q * normSq c2) hm2]
  exact sign_sq_strictMono.le_iff_le

/-! ### The spec's own wording of the ranking, for comparison -/

/-- From the spec's words: similarity is cosine on L2-normalised vectors and
"a zero vector yields similarity 0" (represented by the same
order-isomorphic key as `cos_key`). -/
def sim_spec (q c : List ℚ) : ℚ :=
  if normSq q = 0 ∨ normSq c = 0 then 0 else cos_key q c

/-- Lexicographic order on `Char` lists (ascending), used to spell out the
spec's "ties broken by unit id ascending". -/
def id_le : List Char → List Char → Bool
  | [], _ => true
  | _ :: _, [] => false
  | a :: as, b :: bs => if a < b then true else if b < a then false else id_le as bs

/-- Ascending order on chunk ids. -/
def chunk_id_le (a b : String) : Bool := id_le a.data b.data

/-- From the spec's words: insertion for the ranking "descending by score,
ties broken by unit id ascending". -/
def insert_desc_tie_id (x : ℚ × EmbeddingDocument) :
    List (ℚ × EmbeddingDocument) → List (ℚ × EmbeddingDocument)
  | [] => [x]
  | y :: ys =>
    if y.1 < x.1 ∨ (y.1 = x.1 ∧ chunk_id_le x.2.chunk_id y.2.chunk_id = true)
    then x :: y :: ys
    else y :: insert_desc_tie_id x ys

/-- From the spec's words: sort descending by score with ties broken by unit
id ascending. -/
def sort_desc_tie_id : List (ℚ × EmbeddingDocument) → List (ℚ × EmbeddingDocument)
  | [] => []
  | x :: xs => insert_desc_tie_id x (sort_desc_tie_id xs)

/-- From the spec's words (C2): the ranked search both paths are claimed to
implement — every record of the job scored by `sim_spec`, scores below
`min_score` dropped, sorted descending with ties broken by unit id
ascending, truncated to `k`. -/
def spec_ranked_search (q : List ℚ) (records : List EmbeddingDocument)
    (jobId : String) (k : ℕ) (t : ℚ) : List SearchResult :=
  let docs := records.filter (fun r => r.job_id == jobId)
  let scored := docs.filterMap (fun r =>
    if threshold_key t ≤ sim_spec q r.embedding
    then some (sim_spec q r.embedding, r) else none)
  ((sort_desc_tie_id scored).take k).map (fun p => mk_search_result p.2 p.1)

/-- From the spec's words (C3): the fallback pipeline as the spec describes
it — load every record for the job, score by cosine with zero vectors
scoring 0, keep `score ≥ min_score`, sort descending (stable), truncate to
`k`. -/
def spec_fallback_pipeline (q : List ℚ) (records : List EmbeddingDocument)
    (jobId : String) (k : ℕ) (t : ℚ) : List SearchResult :=
  let docs := records.filter (fun r => r.job_id == jobId)
  let scored := docs.filterMap (fun r =>
    if threshold_key t ≤ sim_spec q r.embedding
    then some (sim_spec q r.embedding, r) else none)
  ((sort_desc scored).take k).map (fun p => mk_search_result p.2 p.1)

/-- Tied record with the lexicographically larger id, stored first. -/
def tie_doc_b : EmbeddingDocument :=
  { job_id := "j", chunk_id := "unit-b", file_path := "b.py", content := "b", embedding := [1] }

/-- Tied record with the lexicographically smaller id, stored second. -/
def tie_doc_a : EmbeddingDocument :=
  { job_id := "j", chunk_id := "unit-a", file_path := "a.py", content := "a", embedding := [1] }

/-- C2 (counterexample): on two records with identical vectors (a tie), the
fallback returns them in stored document order (`unit-b` before `unit-a`,
Python's stable sort), not in unit-id-ascending order as the claim states;
the spec's own ranking would return `unit-a` first. -/
theorem rank_tie_order_counterexample :
    (fallback_similarity_search [1] [tie_doc_b, tie_doc_a] "j" 2 (1 / 2)).map
        (fun s => s.chunk_id) = ["unit-b", "unit-a"]
      ∧ (spec_ranked_search [1] [tie_doc_b, tie_doc_a] "j" 2 (1 / 2)).map
        (fun s => s.chunk_id) = ["unit-a", "unit-b"] := by
  constructor
  · norm_num [fallback_similarity_search, sim_spec, cos_key,
      threshold_key, dot, normSq, sort_desc, insert_desc,
      mk_search_result, tie_doc_a, tie_doc_b, List.filter, List.filterMap]
  · norm_num [spec_ranked_search, sim_spec, cos_key,
      threshold_key, dot, normSq, sort_desc_tie_id,
      insert_desc_tie_id, chunk_id_le, id_le, mk_search_result, tie_doc_a, tie_doc_b,
      List.filter, List.filterMap]
    decide

/-- C2 (witness): the amended equivalence at a concrete input (one record,
`k = 1`, threshold `1/2`). -/
theorem atlas_fallback_rank_equivalence_witness :
    atlas_vector_search [1] [tie_doc_b] "j" 1 (1 / 2)
      = fallback_similarity_search [1] [tie_doc_b] "j" 1 (1 / 2) :=
  atlas_fallback_rank_equivalence [1] [tie_doc_b] "j" 1 (1 / 2) (Or.inl (by norm_num))

/-- All candidates score `sim_spec = 0` under a zero-norm query, so a
positive threshold filters every one of them out of the spec pipeline. -/
theorem spec_scored_nil_of_zero_query (q : List ℚ) (t : ℚ) (hq : normSq q = 0)
    (ht : 0 < t) (docs : List EmbeddingDocument) :
    docs.filterMap (fun r =>
        if threshold_key t ≤ sim_spec q r.embedding
        then some (sim_spec q r.embedding, r) else none) = [] := by
  rw [List.filterMap_eq_nil_iff]
  intro r _
  have hsim : sim_spec q r.embedding = 0 := by
    unfold sim_spec
    rw [if_pos (Or.inl hq)]
  have htk : (0 : ℚ) < threshold_key t := by
    unfold threshold_key
    rw [if_pos (le_of_lt ht)]
    positivity
  rw [hsim, if_neg (not_le_of_lt htk)]

/-- For a non-zero query and positive threshold, the fallback's scoring loop
and the spec pipeline's scoring pass build the same scored list: empty and
zero-norm candidate vectors are skipped by the code and score `0 < t` in the
spec, and every other candidate gets the same cosine score. -/
theorem scored_spec_eq (q : List ℚ) (t : ℚ) (hq : normSq q ≠ 0) (ht : 0 < t)
    (docs : List EmbeddingDocument) :
    docs.filterMap (fun r =>
        if r.embedding = [] then none
        else if normSq r.embedding = 0 then none
        else if threshold_key t ≤ cos_key q r.embedding
          then some (cos_key q r.embedding, r) else none)
      = docs.filterMap (fun r =>
          if threshold_key t ≤ sim_spec q r.embedding
          then some (sim_spec q r.embedding, r) else none) := by
  have htk : (0 : ℚ) < threshold_key t := by
    unfold threshold_key
    rw [if_pos (le_of_lt ht)]
    positivity
  induction docs with
  | nil => rfl
  | cons r rest ih =>
    rw [List.filterMap_cons, List.filterMap_cons]
    by_cases h1 : r.embedding = []
    · have hz : normSq r.embedding = 0 := by rw [h1]; rfl
      rw [if_pos h1, show sim_spec q r.embedding = 0 from by
          unfold sim_spec; rw [if_pos (Or.inr hz)],
        if_neg (not_le_of_lt htk), ih]
    · rw [if_neg h1]
      by_cases h2 : normSq r.embedding = 0
      · rw [if_pos h2, show sim_spec q r.embedding = 0 from by
            unfold sim_spec; rw [if_pos (Or.inr h2)],
          if_neg (not_le_of_lt htk), ih]
      · rw [if_neg h2, show sim_spec q r.embedding = cos_key q r.embedding from by
            unfold sim_spec; rw [if_neg (not_or.mpr ⟨hq, h2⟩)], ih]

/-- C3 (amended): for every query, job records, `k` and positive
`min_score`, the fallback equals the spec's pipeline — load every record of
the job, L2-normalise, score by cosine (zero vectors scoring 0), keep
`score ≥ min_score`, sort descending, truncate to `k` — and a zero-norm
query returns no results.  (All comparisons use the order-isomorphic
rational key of the cosine.) -/
theorem fallback_matches_spec_pipeline (q : List ℚ) (records : List EmbeddingDocument)
    (jobId : String) (k : ℕ) (t : ℚ) (ht : 0 < t) :
    fallback_similarity_search q records jobId k t
        = spec_fallback_pipeline q records jobId k t
      ∧ (normSq q = 0 → fallback_similarity_search q records jobId k t = []) := by
  constructor
  · unfold fallback_similarity_search spec_fallback_pipeline
    dsimp only
    by_cases hq : normSq q = 0
    · rw [if_pos hq, spec_scored_nil_of_zero_query q t hq ht]
      simp [sort_desc]
    · rw [if_neg hq, scored_spec_eq q t hq ht]
  · intro hq
    unfold fallback_similarity_search
    dsimp only
    rw [if_pos hq]

/-- Record holding a zero vector. -/
def zero_doc : EmbeddingDocument :=
  { job_id := "j", chunk_id := "unit-z", file_path := "z.py", content := "z", embedding := [0] }

/-- C3 (counterexample): with a non-positive `min_score` (here `-1`) the
claim's pipeline fails on the code: the fallback skips a zero candidate
vector outright (its `doc_norm > 0` guard), while the claimed pipeline gives
it similarity `0 ≥ -1` and returns it. -/
theorem fallback_zero_vector_counterexample :
    fallback_similarity_search [1] [zero_doc] "j" 5 (-1) = []
      ∧ spec_fallback_pipeline [1] [zero_doc] "j" 5 (-1) ≠ [] := by
  constructor
  · norm_num [fallback_similarity_search, cos_key, threshold_key, dot, normSq,
      sort_desc, insert_desc, zero_doc, List.filter, List.filterMap]
  · norm_num [spec_fallback_pipeline, sim_spec, cos_key, threshold_key, dot, normSq,
      sort_desc, insert_desc, mk_search_result, zero_doc, List.filter, List.filterMap]

/-- C3 (witness): the amended statement at a concrete input. -/
theorem fallback_matches_spec_pipeline_witness :
    (fallback_similarity_search [1] [tie_doc_b] "j" 1 (1 / 2)
        = spec_fallback_pipeline [1] [tie_doc_b] "j" 1 (1 / 2))
      ∧ (normSq [(1 : ℚ)] = 0 →
          fallback_similarity_search [1] [tie_doc_b] "j" 1 (1 / 2) = []) :=
  fallback_matches_spec_pipeline [1] [tie_doc_b] "j" 1 (1 / 2) (by norm_num)

/-! ## `retrieval.retriever.Retriever.retrieve` and the
`api.routes.retrieval.retrieve_chunks` route

The embedding service and the vector store are external collaborators;
their outcomes are passed in (`queryEmbedding`, `search`).  The
`embed_job_chunks` self-heal that `retrieve` triggers when a job has no
embeddings is a side effect on the vector store and does not change the
accept/reject decision modelled here; `top_k`/`score_threshold` defaulting
is folded into `search`. -/

/-- `retriever.RetrievalResult`. -/
structure RetrievalResult where
  chunk_id : String
  file_path : String
  content : String
  score : ℚ
  language : Option String := none
  start_line : Option ℕ := none
  end_line : Option ℕ := none
deriving DecidableEq

/-- The result conversion at the end of `Retriever.retrieve`. -/
def to_retrieval_result (sr : SearchResult) : RetrievalResult :=
  ⟨sr.chunk_id, sr.file_path, sr.content, sr.score, sr.language, sr.start_line, sr.end_line⟩

/-- `Retriever.retrieve(query, job_id, top_k, score_threshold)`: validate
that the job exists (`if not job: raise RetrieverError`), embed the query,
search, convert.  Note: the only job check is existence — the job's status
is not read. -/
def retriever_retrieve (db : List Job) (jobId : String)
    (queryEmbedding : Except String (List ℚ))
    (search : List ℚ → Except String (List SearchResult)) :
    Except String (List RetrievalResult) :=
  match get_job db jobId with
  | none => .error ("Job not found: " ++ jobId)
  | some _ =>
    match queryEmbedding with
    | .error e => .error ("Failed to generate query embedding: " ++ e)
    | .ok v =>
      match search v with
      | .error e => .error ("Similarity search failed: " ++ e)
      | .ok rs => .ok (rs.map to_retrieval_result)

/-- The `HTTPException`s the retrieval route raises. -/
inductive ApiError
  | badRequest (msg : String)
  | notFound (msg : String)
  | internalError (msg : String)
deriving DecidableEq

/-- The string value of each `JobStatus` (the `str`-valued enum of
`models.JobStatus`). -/
def status_str : JobStatus → String
  | .pending => "pending"
  | .cloning => "cloning"
  | .scanning => "scanning"
  | .parsing => "parsing"
  | .chunking => "chunking"
  | .storing => "storing"
  | .completed => "completed"
  | .failed => "failed"

/-- `api.routes.retrieval.retrieve_chunks`: validate the query
(`validate_query`, whose failure message is `queryError`), require the job
to exist (404) and to be in status `"completed"` (400), then call
`Retriever.retrieve` (500 on `RetrieverError`). -/
def retrieve_chunks (db : List Job) (jobId : String) (queryError : Option String)
    (queryEmbedding : Except String (List ℚ))
    (search : List ℚ → Except String (List SearchResult)) :
    Except ApiError (List RetrievalResult) :=
  match queryError with
  | some m => .error (.badRequest m)
  | none =>
    match get_job db jobId with
    | none => .error (.notFound ("Job not found: " ++ jobId))
    | some job =>
      if job.status ≠ .completed then
        .error (.badRequest ("Job is not completed. Current status: " ++ status_str job.status))
      else
        match retriever_retrieve db jobId queryEmbedding search with
        | .error e => .error (.internalError e)
        | .ok rs => .ok rs

/-- A job that exists but is still `PENDING`. -/
def pending_job : Job :=
  { job_id := "job-p", repo_url := "u", repo_owner := "o", repo_name := "n",
    status := .pending }

/-- C1 (counterexample): `Retriever.retrieve` does not reject a job that is
not COMPLETED — for an existing PENDING job it happily returns results; its
only typed rejection is for a missing job. -/
theorem retriever_retrieve_ignores_status_counterexample :
    (get_job [pending_job] "job-p").map (fun j => j.status) = some .pending
      ∧ retriever_retrieve [pending_job] "job-p" (.ok [1])
          (fun _ => .ok [⟨"unit-b", "j", "b.py", "b", 1, none, none, none⟩])
        = .ok [⟨"unit-b", "b.py", "b", 1, none, none, none⟩] := by
  exact ⟨rfl, rfl⟩

/-- C1 (amended): the COMPLETED gate lives one layer up, in the API route
`retrieve_chunks`: the route returns results only when the job exists and
has status COMPLETED, and for every existing job in any other status it
raises the typed 400 error (`Retriever.retrieve` itself rejects only
missing jobs). -/
theorem retrieve_chunks_completed_gate (db : List Job) (jobId : String)
    (queryError : Option String) (queryEmbedding : Except String (List ℚ))
    (search : List ℚ → Except String (List SearchResult)) :
    (∀ rs, retrieve_chunks db jobId queryError queryEmbedding search = .ok rs →
        ∃ j, get_job db jobId = some j ∧ j.status = .completed)
      ∧ (∀ j, queryError = none → get_job db jobId = some j → j.status ≠ .completed →
          retrieve_chunks db jobId queryError queryEmbedding search
            = .error (.badRequest
                ("Job is not completed. Current status: " ++ status_str j.status))) := by
  constructor
  · intro rs h
    unfold retrieve_chunks at h
    cases queryError with
    | some m => exact absurd h (by simp)
    | none =>
      cases hj : get_job db jobId with
      | none =>
        rw [hj] at h
        exact absurd h (by simp)
      | some j =>
        rw [hj] at h
        dsimp only at h
        by_cases hs : j.status = .completed
        · exact ⟨j, rfl, hs⟩
        · rw [if_pos hs] at h
          exact absurd h (by simp)
  · intro j hq hj hs
    subst hq
    unfold retrieve_chunks
    rw [hj]
    dsimp only
    rw [if_pos hs]

/-- C1 (witness): concrete instances of both halves of the amended gate — a
COMPLETED job goes through, a PENDING job gets the typed 400. -/
theorem retrieve_chunks_completed_gate_witness :
    (∃ j, get_job
          [({ job_id := "job-c", repo_url := "u", repo_owner := "o", repo_name := "n",
              status := .completed } : Job)] "job-c" = some j ∧ j.status = .completed)
      ∧ retrieve_chunks [pending_job] "job-p" none (.ok [1]) (fun _ => .ok [])
          = .error (.badRequest "Job is not completed. Current status: pending") :=
  ⟨(retrieve_chunks_completed_gate
      [({ job_id := "job-c", repo_url := "u", repo_owner := "o", repo_name := "n",
          status := .completed } : Job)] "job-c" none (.ok [1]) (fun _ => .ok [])).1
      [] rfl,
   (retrieve_chunks_completed_gate [pending_job] "job-p" none (.ok [1])
      (fun _ => .ok [])).2 pending_job rfl rfl (by decide)⟩

/-! ## `generation.generator.Generator._calculate_confidence` -/

/-- `Generator._calculate_confidence(results)` over the similarity scores of
the results (floats idealised as `ℚ`):

```python
if not results: return 0.0
avg_score = sum(scores) / len(results)
normalized_avg = (avg_score + 1) / 2
result_factor = min(len(results) / 5, 1.0)
confidence = (normalized_avg * 0.7) + (result_factor * 0.3)
return max(0.0, min(1.0, confidence))
```
-/
def calculate_confidence (scores : List ℚ) : ℚ :=
  if scores = [] then 0
  else
    let avg := scores.sum / (scores.length : ℚ)
    let normalizedAvg := (avg + 1) / 2
    let resultFactor := min ((scores.length : ℚ) / 5) 1
    let confidence := normalizedAvg * (7 / 10) + resultFactor * (3 / 10)
    max 0 (min 1 confidence)

/-- When all scores lie in `[-1, 1]`, the raw combination already lies in
`[0, 1]`, so the clamp is the identity and confidence is the affine formula
itself. -/
theorem calculate_confidence_eq_of_bounded (scores : List ℚ) (h : scores ≠ [])
    (hb : ∀ x ∈ scores, -1 ≤ x ∧ x ≤ 1) :
    calculate_confidence scores
      = (scores.sum / scores.length + 1) / 2 * (7 / 10)
        + min ((scores.length : ℚ) / 5) 1 * (3 / 10) := by
  have hlen : 0 < (scores.length : ℚ) := by
    have := List.length_pos.mpr h
    exact_mod_cast this
  have hub : scores.sum ≤ (scores.length : ℚ) := by
    have := List.sum_le_card_nsmul scores 1 (fun x hx => (hb x hx).2)
    simpa [nsmul_eq_mul] using this
  have hlb : -(scores.length : ℚ) ≤ scores.sum := by
    have := List.card_nsmul_le_sum scores (-1) (fun x hx => (hb x hx).1)
    simpa [nsmul_eq_mul] using this
  have havg1 : scores.sum / (scores.length : ℚ) ≤ 1 := by
    rw [div_le_one hlen]
    exact hub
  have havg2 : (-1 : ℚ) ≤ scores.sum / (scores.length : ℚ) := by
    rw [le_div_iff₀ hlen]
    linarith
  have hrf1 : min ((scores.length : ℚ) / 5) 1 ≤ 1 := min_le_right _ _
  have hrf2 : (0 : ℚ) ≤ min ((scores.length : ℚ) / 5) 1 :=
    le_min (by positivity) (by norm_num)
  unfold calculate_confidence
  rw [if_neg h]
  dsimp only
  rw [min_eq_right (by nlinarith), max_eq_right (by nlinarith)]

/-- C9: for every non-empty result list, confidence is exactly
`0.7 × ((mean + 1) / 2) + 0.3 × min(count / 5, 1)` clamped to `[0, 1]`; and
for two result lists of equal length with scores in `[-1, 1]`, a strictly
larger mean score gives strictly larger confidence. -/
theorem confidence_formula_and_monotonicity :
    (∀ scores : List ℚ, scores ≠ [] →
        calculate_confidence scores
          = max 0 (min 1 ((7 / 10) * ((scores.sum / scores.length + 1) / 2)
              + (3 / 10) * min ((scores.length : ℚ) / 5) 1)))
      ∧ (∀ s1 s2 : List ℚ, s1 ≠ [] → s1.length = s2.length →
          (∀ x ∈ s1, -1 ≤ x ∧ x ≤ 1) → (∀ x ∈ s2, -1 ≤ x ∧ x ≤ 1) →
          s2.sum / s2.length < s1.sum / s1.length →
          calculate_confidence s2 < calculate_confidence s1) := by
  constructor
  · intro scores h
    unfold calculate_confidence
    rw [if_neg h]
    dsimp only
    congr 1
    congr 1
    ring
  · intro s1 s2 h1 hlen hb1 hb2 hlt
    have h2 : s2 ≠ [] := by
      intro hnil
      rw [hnil, List.length_nil] at hlen
      exact h1 (List.length_eq_zero.mp hlen)
    rw [calculate_confidence_eq_of_bounded s1 h1 hb1,
      calculate_confidence_eq_of_bounded s2 h2 hb2, hlen]
    have hlt2 : s2.sum / (s2.length : ℚ) < s1.sum / (s2.length : ℚ) := by
      rwa [show ((s1.length : ℚ)) = ((s2.length : ℚ)) from by exact_mod_cast hlen] at hlt
    linarith

/-- C9 (witness): the clamped formula at `[1]`, and strictly higher
confidence for `[1]` than for `[0]`. -/
theorem confidence_formula_and_monotonicity_witness :
    calculate_confidence [1]
        = max 0 (min 1 ((7 / 10) * ((List.sum [(1 : ℚ)] / (List.length [(1 : ℚ)]) + 1) / 2)
            + (3 / 10) * min (((List.length [(1 : ℚ)]) : ℚ) / 5) 1))
      ∧ calculate_confidence [0] < calculate_confidence [1] :=
  ⟨confidence_formula_and_monotonicity.1 [1] (by simp),
   confidence_formula_and_monotonicity.2 [1] [0] (by simp) rfl
     (by norm_num) (by norm_num) (by norm_num)⟩

end DocuMind
